import Mathlib

/-!
Shallow embedding of the neo-meting music gateway core (src/lib.rs and
src/netease.rs) and verification of its specification claims.

The embedding models serde_json values as an inductive `Json` type (integer
numbers only, which covers every field the claims touch), top-level responses
(Rust HashMap String Value) as association lists, fallible Rust code as
Option / Except, and the external crypto primitives (openssl AES-CBC, RSA) as
a record of abstract functions carrying the length laws those libraries
guarantee.  Machine integers (u64, usize, u8) are modelled as Nat; the source
never exercises overflow on the paths treated here.
-/

namespace NeoMeting

/-- Model of serde_json Value.  Only integer numbers appear in the fields the
gateway inspects, so `num` carries a Nat (as_u64 succeeds exactly on
unsigned integers that fit u64; floats and negatives, which as_u64 rejects,
can be represented by other constructors for the purpose of mistyping). -/
inductive Json where
  | null : Json
  | bool : Bool → Json
  | num : Nat → Json
  | str : String → Json
  | arr : List Json → Json
  | obj : List (String × Json) → Json

/-- Lookup in an object field list / top-level HashMap response
(keys produced by serde_json are unique). -/
def mapGet : List (String × Json) → String → Option Json
  | [], _ => none
  | (k, v) :: rest, key => if k = key then some v else mapGet rest key

/-- A decoded top-level response, Rust type HashMap String Value. -/
def JsonMap : Type := List (String × Json)

/-- serde_json Value::get(key): field of an object, none on other shapes. -/
def Json.get : Json → String → Option Json
  | .obj fields, key => mapGet fields key
  | _, _ => none

/-- Value::as_u64: the number when the value is an unsigned integer in range. -/
def Json.as_u64 : Json → Option Nat
  | .num n => if n < 2 ^ 64 then some n else none
  | _ => none

/-- Value::as_str. -/
def Json.as_str : Json → Option String
  | .str s => some s
  | _ => none

/-- Value::as_array. -/
def Json.as_array : Json → Option (List Json)
  | .arr xs => some xs
  | _ => none

/-! ## Error model (src/lib.rs, enum Error) -/

/-- src/lib.rs enum Error (the field name feild is spelled as in the source). -/
inductive Error where
  | Remote : String → Error
  | Server : String → Error
  | Encode : (engine : String) → (msg : String) → Error
  | NoField : String → Error
  | TypeMismatch : (feild : String) → (target : String) → Error
  | None : Error
  | Unimplemented : Error
deriving DecidableEq

/-- Helper for the Rust Option::ok_or pattern used throughout netease.rs. -/
def orErr {α : Type} (o : Option α) (e : Error) : Except Error α :=
  match o with
  | some a => .ok a
  | none => .error e

/-! ## retry combinator (src/lib.rs, fn retry)

The source loops with a mutable counter starting at 0; each iteration invokes
the task once; on Err with counter < limit it calls on_error and increments,
otherwise it returns.  We index invocations by the counter value at which they
run, so a task is a function from the attempt index to its outcome, and the
recursion is driven by the fuel limit - counter (counter < limit holds exactly
when the fuel is nonzero).  The model returns the final result together with
the number of invocations performed and the list of errors passed to
on_error, in call order. -/

/-- One unfolding of the retry loop: counter is the current attempt index,
fuel = limit - counter. -/
def retryFrom {O E : Type} (task : Nat → Except E O) : Nat → Nat → Except E O × Nat × List E
  | counter, fuel =>
    match task counter, fuel with
    | .ok o, _ => (.ok o, 1, [])
    | .error e, 0 => (.error e, 1, [])
    | .error e, fuel' + 1 =>
      let rest := retryFrom task (counter + 1) fuel'
      (rest.1, rest.2.1 + 1, e :: rest.2.2)

/-- src/lib.rs retry: result, number of task invocations, on_error call list. -/
def retry {O E : Type} (limit : Nat) (task : Nat → Except E O) : Except E O × Nat × List E :=
  retryFrom task 0 limit

/-! ## Search request (src/netease.rs, SearchReq and MetingSearchOptions) -/

/-- src/lib.rs MetingSearchOptions (usize fields modelled as Nat). -/
structure MetingSearchOptions where
  limit : Nat
  page : Nat
  type : Nat
deriving DecidableEq

/-- src/netease.rs SearchReq (the payload fields that depend on the input). -/
structure SearchReq where
  s : String
  type : Nat
  limit : Nat
  total : Bool
  offset : Nat
deriving DecidableEq

/-- src/netease.rs SearchReq::new: page 0 is normalized to 1, offset is
(page - 1) * limit (Nat subtraction agrees with usize here since page ≥ 1
after normalization). -/
def SearchReq.new (s : String) (options : MetingSearchOptions) : SearchReq :=
  let page := if options.page = 0 then 1 else options.page
  { s := s
    type := options.type
    limit := options.limit
    total := true
    offset := (page - 1) * options.limit }

/-! ## Response normalizer (src/netease.rs, fn get_id_name_artist) -/

/-- The fold body of the artist join in get_id_name_artist: acc is the string
built so far, the pair is the enumerated (index, name).  At index 0 the fold
returns the name itself (discarding the empty initial accumulator); at any
later index it appends "/" and the name. -/
def artistFoldStep (acc : String) (p : Nat × String) : String :=
  if p.1 ≠ 0 then acc ++ "/" ++ p.2 else p.2

/-- The enumerate-and-fold join over the surviving artist names
(source: .enumerate().fold(String::new(), ...)). -/
def joinNames (names : List String) : String :=
  names.enum.foldl artistFoldStep ""

/-- Artist extraction from an ar array: keep elements whose name field is a
string (source: .filter_map(|x| x.get("name")?.as_str())), then join. -/
def artistJoin (ar : List Json) : String :=
  joinNames (ar.filterMap fun x => (x.get "name").bind Json.as_str)

/-- src/netease.rs get_id_name_artist: requires id as u64, name as str and
ar as array (each ? returns None); yields (id.to_string(), name, joined
artists). -/
def get_id_name_artist (input : Json) : Option (String × String × String) := do
  let idv ← input.get "id"
  let id ← idv.as_u64
  let namev ← input.get "name"
  let name ← namev.as_str
  let arv ← input.get "ar"
  let ar ← arv.as_array
  pure (toString id, name, artistJoin ar)

/-! ## Playlist batching (src/netease.rs, Netease::playlist) -/

/-- src/netease.rs SongItem (serialized into batch detail requests). -/
structure SongItem where
  id : Nat
  v : Nat
deriving DecidableEq

/-- SongItem::new: v is always 0. -/
def SongItem.new (id : Nat) : SongItem := { id := id, v := 0 }

/-- src/netease.rs ITEM_PRE_REQUEST. -/
def ITEM_PRE_REQUEST : Nat := 512

/-- The batch partition fold of Netease::playlist: each enumerated item is
pushed into the current bucket first; then, when index % 512 == 0 and
index != 0, the bucket is flushed into the bucket set; after the fold the
final bucket (possibly empty) is pushed as well. -/
def partitionBatches (items : List SongItem) : List (List SongItem) :=
  let acc := items.enum.foldl
    (fun (acc : List SongItem × List (List SongItem)) (p : Nat × SongItem) =>
      let bucket := acc.1 ++ [p.2]
      if p.1 % ITEM_PRE_REQUEST = 0 ∧ p.1 ≠ 0 then
        ([], acc.2 ++ [bucket])
      else
        (bucket, acc.2))
    ([], [])
  acc.2 ++ [acc.1]

/-! ## Playback URL operation (src/netease.rs, Netease::url) -/

/-- One pass of Rust str::replace over a character list: at each position a
match of the pattern emits the replacement and skips the match, otherwise the
character is kept; matches are found left to right and do not overlap.  The
fuel argument (instantiated with the input length) only drives the structural
recursion: each step consumes at least one input character, so the fuel never
runs out for a non-empty pattern. -/
def replaceGo (pat rep : List Char) : Nat → List Char → List Char
  | 0, s => s
  | _ + 1, [] => []
  | fuel + 1, c :: rest =>
    if pat.isPrefixOf (c :: rest) then
      rep ++ replaceGo pat rep fuel (List.drop pat.length (c :: rest))
    else
      c :: replaceGo pat rep fuel rest

/-- Rust str::replace(pat, rep): replaces every non-overlapping occurrence of
pat, scanning left to right. -/
def rustReplace (s pat rep : String) : String :=
  String.mk (replaceGo pat.data rep.data s.data.length s.data)

/-- Whether pat occurs as a contiguous substring of s, at any position. -/
def containsSub (pat : List Char) : List Char → Bool
  | [] => pat.isEmpty
  | c :: rest => pat.isPrefixOf (c :: rest) || containsSub pat rest

/-- The response handling of Netease::url after the request returns: requires
data as array, a first element, code as u64 equal to 200, then url (or
uf.url) as str, and replaces every occurrence of "http://" with "https://"
(Rust str::replace replaces all matches; rustReplace models it). -/
def urlExtract (data : JsonMap) : Except Error String := do
  let dataV ← orErr (mapGet data "data") (.NoField "data")
  let dataArr ← orErr dataV.as_array (.TypeMismatch "data" "array")
  let json ← orErr dataArr.head? .None
  let codeV ← orErr (json.get "code") (.NoField "code")
  let code ← orErr codeV.as_u64 (.TypeMismatch "code" "u64")
  let _ ← if code = 200 then Except.ok () else Except.error Error.None
  let urlV ← orErr ((json.get "url").orElse fun _ => (json.get "uf").bind (Json.get · "url"))
      (.NoField "json.url / json.uf.url")
  let urlStr ← orErr urlV.as_str (.TypeMismatch "json.url / json.uf.url" "str")
  pure (rustReplace urlStr "http://" "https://")

/-- src/netease.rs enum ParseErr; the wrapped library error values
(openssl ErrorStack, FromUtf8Error, OsError) are modelled by their message
strings. -/
inductive ParseErr where
  | ImportPubKey : String → ParseErr
  | EncodeSource : String → ParseErr
  | EncodeRevStr : ParseErr
  | EncodeData : String → ParseErr
  | EncodeKey : String → ParseErr
  | GenRandomNumber : ParseErr
deriving DecidableEq

/-- Model of the derived Debug formatting of ParseErr used as the msg of
Error::Encode (only the Encode classification matters to the claims). -/
def parseErrDebug : ParseErr → String
  | .ImportPubKey m => "ImportPubKey(" ++ m ++ ")"
  | .EncodeSource m => "EncodeSource(" ++ m ++ ")"
  | .EncodeRevStr => "EncodeRevStr"
  | .EncodeData m => "EncodeData(" ++ m ++ ")"
  | .EncodeKey m => "EncodeKey(" ++ m ++ ")"
  | .GenRandomNumber => "GenRandomNumber"

/-- The whole Netease::url operation with the envelope encoder and the remote
call abstracted: encoding failure is mapped to Error::Encode with engine
"netease" (ENCODER_NAME), transport failure to Error::Remote, and the
response is handed to urlExtract.  α is the envelope type (WeapiEncoder in
the source). -/
def urlOp {α : Type} (encode : Except ParseErr α)
    (fetch : α → Except String JsonMap) : Except Error String := do
  let env ← match encode with
    | .ok a => Except.ok a
    | .error e => Except.error (Error.Encode "netease" (parseErrDebug e))
  let resp ← match fetch env with
    | .ok r => Except.ok r
    | .error e => Except.error (Error.Remote e)
  urlExtract resp

/-! ## Single song operation (src/netease.rs, Netease::song)

The songs extraction uses .unwrap() three times (on the songs field, on
as_array and on first), so a malformed response panics instead of returning
an Err.  The model makes the panic explicit as an outcome. -/

/-- src/lib.rs MetingSong. -/
structure MetingSong where
  name : String
  artist : String
  url : String
  pic : String
  lrc : String
deriving DecidableEq

/-- src/netease.rs GET_ID_NAME_PIC_ARTIST_ERR_MSG (verbatim). -/
def GET_ID_NAME_PIC_ARTIST_ERR_MSG : String :=
  "\n.id as u64\n| .name as str\n| .al.pic_str as str / .al.pic as u64\n| .ar as array\n"

/-- Possible outcomes of the song response handling: a Rust panic (unwrap on
None), an Err, or an Ok song. -/
inductive SongOutcome where
  | panic : SongOutcome
  | err : Error → SongOutcome
  | ok : MetingSong → SongOutcome
deriving DecidableEq

/-- The response handling of Netease::song: json.get("songs").unwrap()
.as_array().unwrap().first().unwrap() followed by get_id_name_artist with
ok_or(Error::NoField(GET_ID_NAME_PIC_ARTIST_ERR_MSG)). -/
def songExtract (resp : JsonMap) (pic lrc url : String → String) : SongOutcome :=
  match mapGet resp "songs" with
  | none => .panic
  | some v =>
    match v.as_array with
    | none => .panic
    | some arr =>
      match arr.head? with
      | none => .panic
      | some first =>
        match get_id_name_artist first with
        | none => .err (.NoField GET_ID_NAME_PIC_ARTIST_ERR_MSG)
        | some (id, name, artist) =>
          .ok { name := name, artist := artist, url := url id, pic := pic id, lrc := lrc id }

/-! ## Playlist fan-out / fan-in (src/netease.rs, Netease::playlist)

After the partition, each bucket is serialized and encoded; buckets whose
encoding fails are dropped by filter_map(...ok()); each surviving envelope
becomes a retry-wrapped task; tasks are awaited in creation order, a failed
task is skipped by continue, and a succeeded response must have songs as an
array or the whole operation aborts; surviving records are normalized with
get_id_name_artist (malformed elements skipped) and appended in order.
The envelope type is abstracted as α, the per-attempt remote outcome as
fetch. -/

/-- The await loop of Netease::playlist over the ordered task results. -/
def playlistCollect (pic lrc url : String → String) :
    List (Except String JsonMap) → Except Error (List MetingSong)
  | [] => .ok []
  | .error _ :: rest => playlistCollect pic lrc url rest
  | .ok json :: rest => do
    let songsV ← orErr (mapGet json "songs") (.NoField "<song-detal>.songs")
    let arr ← orErr songsV.as_array (.TypeMismatch "<song-detal>.songs" "array")
    let songs := (arr.filterMap get_id_name_artist).map
      (fun x => ({ name := x.2.1, artist := x.2.2, url := url x.1, pic := pic x.1,
                   lrc := lrc x.1 } : MetingSong))
    let restSongs ← playlistCollect pic lrc url rest
    .ok (songs ++ restSongs)

/-- The batched fetch pipeline of Netease::playlist, starting from the
extracted track ids: map SongItem::new, partition into buckets, drop buckets
whose envelope encoding fails (filter_map ... ok()), run each surviving
envelope through the retry combinator with the given limit, and collect the
ordered results. -/
def playlistPipeline {α : Type} (trackIds : List Nat)
    (encode : List SongItem → Option α) (retryLimit : Nat)
    (fetch : α → Nat → Except String JsonMap)
    (pic lrc url : String → String) : Except Error (List MetingSong) :=
  let items := trackIds.map SongItem.new
  let buckets := partitionBatches items
  let tasks := buckets.filterMap encode
  let results := tasks.map fun env => (retry retryLimit (fetch env)).1
  playlistCollect pic lrc url results

/-! ## Crypto envelope codec (src/netease.rs, WeapiEncoder::try_from_str)

The base64 and hex codecs are implemented concretely (they are standard and
deterministic).  The AES-128-CBC and raw RSA primitives come from openssl and
are modelled as abstract functions in a CryptoPrims record, each carrying the
output-length law the library guarantees: AES-CBC with the default PKCS7
padding always emits (n / 16 + 1) * 16 bytes for an n-byte input, and
public_encrypt with Padding::NONE fills the whole rsa.size() output buffer,
which is what the source hex-encodes.  The 16 random bytes drawn from OsRng
are an explicit argument, so the model is the encoder as a function of its
random input; failure of the random source (GenRandomNumber) happens before
any of the modelled steps.  Byte sequences are Lists of Nat; strings are
turned into bytes by char codes, which coincides with UTF-8 on the ASCII
data flowing through the encoder (base64 text and JSON payloads). -/

/-- String bytes (valid for the ASCII strings the encoder handles). -/
def strBytes (s : String) : List Nat := s.toList.map Char.toNat

/-- The base64 alphabet character at an index. -/
def b64Char (n : Nat) : Char :=
  "ABCDEFGHIJKLMNOPQRSTUVWXYZabcdefghijklmnopqrstuvwxyz0123456789+/".toList.getD n 'A'

/-- Standard base64 chunking: 3 input bytes become 4 output characters, with
= padding for a 1- or 2-byte tail. -/
def base64Chunks : List Nat → List Char
  | [] => []
  | [a] => [b64Char (a / 4), b64Char (a % 4 * 16), '=', '=']
  | [a, b] => [b64Char (a / 4), b64Char (a % 4 * 16 + b / 16), b64Char (b % 16 * 4), '=']
  | a :: b :: c :: rest =>
    b64Char (a / 4) :: b64Char (a % 4 * 16 + b / 16) :: b64Char (b % 16 * 4 + c / 64)
      :: b64Char (c % 64) :: base64Chunks rest

/-- base64::BASE64_STANDARD.encode. -/
def base64Encode (bytes : List Nat) : String := String.mk (base64Chunks bytes)

/-- The lowercase hex digit at an index. -/
def hexChar (n : Nat) : Char := "0123456789abcdef".toList.getD n '0'

/-- hex::encode character stream: two digits per byte. -/
def hexChunks : List Nat → List Char
  | [] => []
  | b :: rest => hexChar (b / 16) :: hexChar (b % 16) :: hexChunks rest

/-- hex::encode. -/
def hexEncode (bytes : List Nat) : String := String.mk (hexChunks bytes)

/-- The 62-character alphanumeric alphabet of try_from_str, as byte values. -/
def base62Alphabet : List Nat :=
  "abcdefghijklmnopqrstuvwxyzABCDEFGHIJKLMNOPQRSTUVWXYZ0123456789".toList.map Char.toNat

/-- The symmetric key derivation: each raw random byte indexes the alphabet
modulo 62 (source: skey.into_iter().map(|index| base62[(index % 62) as usize])). -/
def derivedKey (skeyRaw : List Nat) : List Nat :=
  skeyRaw.map fun index => base62Alphabet.getD (index % 62) 0

/-- The external crypto primitives (openssl), with the length laws the
library guarantees for the modes the source uses. -/
structure CryptoPrims where
  aesEnc : List Nat → List Nat → List Nat → Except String (List Nat)
  aesLen : ∀ key iv data out, aesEnc key iv data = .ok out →
    out.length = (data.length / 16 + 1) * 16
  rsaImport : Except String Unit
  rsaSize : Nat
  rsaSizePos : 0 < rsaSize
  rsaEnc : List Nat → Except String (List Nat)
  rsaLen : ∀ data out, rsaEnc data = .ok out → out.length = rsaSize

/-- src/netease.rs WeapiEncoder: the signed envelope. -/
structure WeapiEncoder where
  params : String
  encSecKey : String
deriving DecidableEq

/-- The fixed IV "0102030405060708" as bytes. -/
def ivBytes : List Nat := strBytes "0102030405060708"

/-- The fixed first-layer AES key "0CoJUm6Qyw8W8jud" as bytes. -/
def presetKey : List Nat := strBytes "0CoJUm6Qyw8W8jud"

/-- src/netease.rs WeapiEncoder::try_from_str as a function of the 16 random
bytes: derive the symmetric key, AES-encrypt the plaintext under the preset
key and base64 it, AES-encrypt those base64 bytes under the symmetric key and
base64 it into params, reverse the symmetric key and read it as UTF-8 text
(EncodeRevStr on failure; the check is the ASCII range, exact on these
alphanumeric bytes), import the RSA public key, zero-pad the reversed key on
the left to 128 bytes, raw-RSA-encrypt it and hex it into enc_sec_key. -/
def WeapiEncoder.tryFromStr (prims : CryptoPrims) (skeyRaw : List Nat) (input : String) :
    Except ParseErr WeapiEncoder := do
  let skey := derivedKey skeyRaw
  let c1 ← match prims.aesEnc presetKey ivBytes (strBytes input) with
    | .ok v => Except.ok v
    | .error e => Except.error (ParseErr.EncodeSource e)
  let b1 := base64Encode c1
  let c2 ← match prims.aesEnc skey ivBytes (strBytes b1) with
    | .ok v => Except.ok v
    | .error e => Except.error (ParseErr.EncodeData e)
  let params := base64Encode c2
  let skeyRev := skey.reverse
  let skeyStr ← if skeyRev.all (fun b => b < 128) then Except.ok skeyRev
    else Except.error ParseErr.EncodeRevStr
  let _ ← match prims.rsaImport with
    | .ok u => Except.ok u
    | .error e => Except.error (ParseErr.ImportPubKey e)
  let padded := List.replicate (128 - skeyStr.length) 0 ++ skeyStr
  let buf ← match prims.rsaEnc padded with
    | .ok v => Except.ok v
    | .error e => Except.error (ParseErr.EncodeKey e)
  .ok { params := params, encSecKey := hexEncode buf }

/-! ## Spec-side definitions for refinement comparison -/

/-- The join the spec describes for artist names: the names separated by a
single slash (used to compare the fold in the source against the spec words
of section 3, NormalizedTrackRef). -/
def specJoin : List String → String
  | [] => ""
  | [n] => n
  | n :: rest => n ++ "/" ++ specJoin rest

/-! ## Concrete fixtures used by witnesses and concrete scenarios -/

instance {e a : Type} [DecidableEq e] [DecidableEq a] : DecidableEq (Except e a) := fun x y =>
  match x, y with
  | .ok u, .ok v => if h : u = v then .isTrue (by rw [h]) else .isFalse (by simp [h])
  | .error u, .error v => if h : u = v then .isTrue (by rw [h]) else .isFalse (by simp [h])
  | .ok _, .error _ => .isFalse (by simp)
  | .error _, .ok _ => .isFalse (by simp)

/-- A well-formed upstream song-detail response for a batch: every track of
the batch appears with its id, the name "n" and an empty ar array. -/
def songsResp (b : List SongItem) : JsonMap :=
  [("songs", Json.arr (b.map fun it =>
    Json.obj [("id", Json.num it.id), ("name", Json.str "n"), ("ar", Json.arr [])]))]

/-- The MetingSong produced from a songsResp track when the three link
builders are the identity on the id string. -/
def plainSong (i : Nat) : MetingSong :=
  { name := "n", artist := "", url := toString i, pic := toString i, lrc := toString i }

/-- A concrete crypto primitive instance for witnesses: AES returns a zero
block of the PKCS7 length, RSA returns a zero 128-byte buffer. -/
def testPrims : CryptoPrims where
  aesEnc := fun _ _ d => .ok (List.replicate ((d.length / 16 + 1) * 16) 0)
  aesLen := fun _ _ d out h => by
    injection h with h
    rw [← h]
    simp
  rsaImport := .ok ()
  rsaSize := 128
  rsaSizePos := by decide
  rsaEnc := fun _ => .ok (List.replicate 128 0)
  rsaLen := fun d out h => by
    injection h with h
    rw [← h]
    simp

/-- The envelope testPrims produces from 16 zero random bytes and input x. -/
def c8env : WeapiEncoder :=
  { params := "AAAAAAAAAAAAAAAAAAAAAAAAAAAAAAAAAAAAAAAAAAA="
    encSecKey := String.mk (List.replicate 256 (Char.ofNat 48)) }

/-! ## Supporting lemmas for the artist join -/

theorem specJoin_cons_append (s t : String) (rest : List String) :
    specJoin ((s ++ t) :: rest) = s ++ specJoin (t :: rest) := by
  cases rest with
  | nil => rfl
  | cons r rs =>
    show (s ++ t) ++ "/" ++ specJoin (r :: rs) = s ++ (t ++ "/" ++ specJoin (r :: rs))
    rw [String.append_assoc, String.append_assoc, String.append_assoc]

theorem foldl_slash (rest : List String) :
    ∀ n : String, rest.foldl (fun a x => a ++ "/" ++ x) n = specJoin (n :: rest) := by
  induction rest with
  | nil => intro n; rfl
  | cons m rs ih =>
    intro n
    show rs.foldl (fun a x => a ++ "/" ++ x) (n ++ "/" ++ m) = specJoin (n :: m :: rs)
    rw [ih (n ++ "/" ++ m), specJoin_cons_append (n ++ "/") m rs]
    rfl

theorem foldl_enumFrom_artist (rest : List String) :
    ∀ (k : Nat) (acc : String),
      (List.enumFrom (k + 1) rest).foldl artistFoldStep acc
        = rest.foldl (fun a x => a ++ "/" ++ x) acc := by
  induction rest with
  | nil => intro k acc; rfl
  | cons m rs ih =>
    intro k acc
    rw [List.enumFrom_cons, List.foldl_cons, List.foldl_cons]
    have hstep : artistFoldStep acc (k + 1, m) = acc ++ "/" ++ m := by
      simp [artistFoldStep]
    rw [hstep]
    exact ih (k + 1) (acc ++ "/" ++ m)

theorem joinNames_eq_specJoin (names : List String) : joinNames names = specJoin names := by
  cases names with
  | nil => rfl
  | cons n rest =>
    unfold joinNames
    rw [List.enum_cons, List.foldl_cons]
    have h0 : artistFoldStep "" (0, n) = n := by simp [artistFoldStep]
    rw [h0]
    have := foldl_enumFrom_artist rest 0 n
    simpa [foldl_slash rest n] using this

/-! ## Supporting lemmas for the replace semantics -/

theorem replaceGo_fuel (pat rep : List Char) (hp : pat ≠ []) :
    ∀ (f1 : Nat), ∀ (f2 : Nat) (s : List Char), s.length ≤ f1 → s.length ≤ f2 →
      replaceGo pat rep f1 s = replaceGo pat rep f2 s := by
  intro f1
  induction f1 with
  | zero =>
    intro f2 s h1 _
    have hs : s = [] := List.eq_nil_of_length_eq_zero (Nat.le_zero.mp h1)
    subst hs
    cases f2 <;> rfl
  | succ f ih =>
    intro f2 s h1 h2
    cases s with
    | nil => cases f2 <;> rfl
    | cons c rest =>
      cases f2 with
      | zero => simp at h2
      | succ g =>
        unfold replaceGo
        by_cases hpre : pat.isPrefixOf (c :: rest)
        · rw [if_pos hpre, if_pos hpre]
          refine congrArg (rep ++ ·) (ih g _ ?_ ?_)
          · have := List.length_drop pat.length (c :: rest)
            have hplen : 1 ≤ pat.length := by
              cases pat with
              | nil => exact absurd rfl hp
              | cons _ _ => simp
            simp only [this, List.length_cons] at *
            omega
          · have := List.length_drop pat.length (c :: rest)
            have hplen : 1 ≤ pat.length := by
              cases pat with
              | nil => exact absurd rfl hp
              | cons _ _ => simp
            simp only [this, List.length_cons] at *
            omega
        · rw [if_neg hpre, if_neg hpre]
          refine congrArg (c :: ·) (ih g rest ?_ ?_)
          · simp at h1; omega
          · simp at h2; omega

theorem replaceGo_not_contains (pat rep : List Char)
    (s : List Char) (h : containsSub pat s = false) :
    ∀ fuel, replaceGo pat rep fuel s = s := by
  induction s with
  | nil => intro fuel; cases fuel <;> rfl
  | cons c rest ih =>
    intro fuel
    simp only [containsSub, Bool.or_eq_false_iff] at h
    cases fuel with
    | zero => rfl
    | succ f =>
      unfold replaceGo
      rw [if_neg (by simp [h.1])]
      exact congrArg (c :: ·) (ih h.2 f)

theorem isPrefixOfEqv (l1 l2 : List Char) : l1.isPrefixOf l2 = true ↔ l1 <+: l2 :=
  List.isPrefixOf_iff_prefix

theorem containsSub_of_occurrence (pat t : List Char) (h : pat <+: t) :
    containsSub pat t = true := by
  cases t with
  | nil =>
    have : pat = [] := List.prefix_nil.mp h
    subst this
    rfl
  | cons c rest =>
    simp only [containsSub, Bool.or_eq_true]
    exact Or.inl (isPrefixOfEqv pat (c :: rest) |>.mpr h)

theorem replaceGo_cons (pat rep : List Char) (f : Nat) (c : Char) (rest : List Char) :
    replaceGo pat rep (f + 1) (c :: rest)
      = if pat.isPrefixOf (c :: rest) then
          rep ++ replaceGo pat rep f (List.drop pat.length (c :: rest))
        else c :: replaceGo pat rep f rest := rfl

theorem replaceGo_first_occurrence (pat rep : List Char) (hp : pat ≠ []) :
    ∀ (u v : List Char), containsSub pat (u ++ pat.dropLast) = false →
      ∀ fuel, (u ++ pat ++ v).length ≤ fuel →
        replaceGo pat rep fuel (u ++ pat ++ v)
          = u ++ rep ++ replaceGo pat rep v.length v := by
  intro u
  induction u with
  | nil =>
    intro v _ fuel hfuel
    cases pat with
    | nil => exact absurd rfl hp
    | cons p ps =>
      cases fuel with
      | zero => simp at hfuel
      | succ f =>
        simp only [List.nil_append, List.cons_append]
        rw [replaceGo_cons]
        rw [if_pos ((isPrefixOfEqv (p :: ps) (p :: (ps ++ v))).mpr
          (by rw [← List.cons_append]; exact List.prefix_append _ v))]
        have hdrop : List.drop (p :: ps).length (p :: (ps ++ v)) = v := by
          rw [← List.cons_append]
          exact List.drop_left _ _
        rw [hdrop]
        refine congrArg (rep ++ ·) ?_
        refine replaceGo_fuel (p :: ps) rep hp f v.length v ?_ (Nat.le_refl _)
        simp only [List.cons_append, List.length_cons, List.length_append] at hfuel
        omega
  | cons c u' ih =>
    intro v h fuel hfuel
    have hplen : 1 ≤ pat.length := by
      cases pat with
      | nil => exact absurd rfl hp
      | cons _ _ => simp
    cases fuel with
    | zero => simp at hfuel
    | succ f =>
      have hkey : pat.dropLast ++ ([pat.getLast hp] ++ v) = pat ++ v := by
        rw [← List.append_assoc, List.dropLast_append_getLast hp]
      have ht : ((c :: u') ++ pat.dropLast) <+: ((c :: u') ++ pat ++ v) := by
        refine ⟨[pat.getLast hp] ++ v, ?_⟩
        rw [List.append_assoc, hkey, ← List.append_assoc]
      have hnotpre : pat.isPrefixOf (c :: (u' ++ pat ++ v)) = false := by
        by_contra hcontra
        have hb : pat.isPrefixOf (c :: (u' ++ pat ++ v)) = true := by
          simpa using hcontra
        have hpre : pat <+: ((c :: u') ++ pat ++ v) := by
          have := (isPrefixOfEqv pat (c :: (u' ++ pat ++ v))).mp hb
          simpa using this
        have hlen : pat.length ≤ ((c :: u') ++ pat.dropLast).length := by
          simp only [List.length_append, List.length_cons, List.length_dropLast]
          omega
        have hptt := List.prefix_of_prefix_length_le hpre ht hlen
        have hcc := containsSub_of_occurrence pat _ hptt
        rw [h] at hcc
        simp at hcc
      have hs : (c :: u') ++ pat ++ v = c :: (u' ++ pat ++ v) := by simp
      rw [hs, replaceGo_cons]
      rw [if_neg (by rw [hnotpre]; simp)]
      have htail : containsSub pat (u' ++ pat.dropLast) = false := by
        have h' : containsSub pat (c :: (u' ++ pat.dropLast)) = false := by
          simpa using h
        simp only [containsSub, Bool.or_eq_false_iff] at h'
        exact h'.2
      have ihh := ih v htail f (by
        simp only [List.length_append, List.length_cons] at hfuel ⊢
        omega)
      rw [ihh]
      simp


/-! ## Supporting lemmas for the envelope codec -/

theorem base64Chunks_ne_nil (x : Nat) (xs : List Nat) : base64Chunks (x :: xs) ≠ [] := by
  cases xs with
  | nil => simp [base64Chunks]
  | cons b rest => cases rest <;> simp [base64Chunks]

theorem base64Encode_ne_empty (xs : List Nat) (h : xs ≠ []) : base64Encode xs ≠ "" := by
  cases xs with
  | nil => exact absurd rfl h
  | cons x rest =>
    intro heq
    exact base64Chunks_ne_nil x rest (congrArg String.data heq)

theorem hexEncode_ne_empty (xs : List Nat) (h : xs ≠ []) : hexEncode xs ≠ "" := by
  cases xs with
  | nil => exact absurd rfl h
  | cons x rest =>
    intro heq
    have : hexChunks (x :: rest) = [] := congrArg String.data heq
    simp [hexChunks] at this

/-! ## Supporting lemmas for the retry combinator -/

theorem retryFrom_count {O E : Type} (task : Nat → Except E O) :
    ∀ (fuel counter : Nat),
      1 ≤ (retryFrom task counter fuel).2.1
        ∧ (retryFrom task counter fuel).2.1 ≤ fuel + 1 := by
  intro fuel
  induction fuel with
  | zero =>
    intro counter
    unfold retryFrom
    cases task counter <;> simp
  | succ f ih =>
    intro counter
    unfold retryFrom
    cases task counter with
    | ok o => simp
    | error e =>
      have := ih (counter + 1)
      constructor
      · simp
      · simpa using Nat.add_le_add_right this.2 1

theorem retryFrom_first_ok {O E : Type} (task : Nat → Except E O) (o : O) (err : Nat → E) :
    ∀ (j fuel counter : Nat), j ≤ fuel →
      (∀ k, k < j → task (counter + k) = .error (err (counter + k))) →
      task (counter + j) = .ok o →
      retryFrom task counter fuel
        = (.ok o, j + 1, (List.range j).map fun k => err (counter + k)) := by
  intro j
  induction j with
  | zero =>
    intro fuel counter _ _ hok
    rw [Nat.add_zero] at hok
    cases fuel <;> (unfold retryFrom; rw [hok]; rfl)
  | succ j ih =>
    intro fuel counter hj hlt hok
    cases fuel with
    | zero => omega
    | succ f =>
      unfold retryFrom
      have h0 : task counter = .error (err counter) := by
        simpa using hlt 0 (Nat.succ_pos j)
      rw [h0]
      have ihr := ih f (counter + 1) (by omega)
        (fun k hk => by
          have := hlt (k + 1) (by omega)
          rwa [show counter + (k + 1) = counter + 1 + k by omega] at this)
        (by rwa [show counter + (j + 1) = counter + 1 + j by omega] at hok)
      simp only [ihr]
      refine congrArg (Prod.mk _) (congrArg (Prod.mk _) ?_)
      rw [List.range_succ_eq_map, List.map_cons, List.map_map]
      refine congrArg (List.cons _) (List.map_congr_left fun k _ => ?_)
      simp [Function.comp]
      exact congrArg err (by omega)

theorem retryFrom_all_err {O E : Type} (task : Nat → Except E O) (err : Nat → E) :
    ∀ (fuel counter : Nat),
      (∀ k, k ≤ fuel → task (counter + k) = .error (err (counter + k))) →
      retryFrom task counter fuel
        = (.error (err (counter + fuel)), fuel + 1,
           (List.range fuel).map fun k => err (counter + k)) := by
  intro fuel
  induction fuel with
  | zero =>
    intro counter h
    unfold retryFrom
    rw [show task counter = .error (err counter) from by simpa using h 0 (Nat.le_refl 0)]
    rfl
  | succ f ih =>
    intro counter h
    unfold retryFrom
    rw [show task counter = .error (err counter) from by simpa using h 0 (Nat.zero_le _)]
    have ihr := ih (counter + 1) (fun k hk => by
      have := h (k + 1) (by omega)
      rwa [show counter + (k + 1) = counter + 1 + k by omega] at this)
    simp only [ihr]
    rw [show counter + 1 + f = counter + (f + 1) by omega]
    refine congrArg (Prod.mk _) (congrArg (Prod.mk _) ?_)
    rw [List.range_succ_eq_map, List.map_cons, List.map_map]
    refine congrArg (List.cons _) (List.map_congr_left fun k _ => ?_)
    simp [Function.comp]
    exact congrArg err (by omega)

/-! ## Claim theorems -/

/-- C3: the retry combinator invokes the task between 1 and limit + 1 times;
it returns the first successful result when an invocation succeeds within the
budget, with the failure hook called exactly once per preceding failed
invocation; when every invocation fails it returns the error of the last
(limit + 1-th) invocation with the hook called on each non-final failure; and
limit 0 means exactly one attempt. -/
theorem c3_retry_contract {O E : Type} :
    (∀ (limit : Nat) (task : Nat → Except E O),
        1 ≤ (retry limit task).2.1 ∧ (retry limit task).2.1 ≤ limit + 1)
    ∧ (∀ (limit j : Nat) (task : Nat → Except E O) (o : O) (err : Nat → E),
        j ≤ limit → (∀ k, k < j → task k = .error (err k)) → task j = .ok o →
        retry limit task = (.ok o, j + 1, (List.range j).map err))
    ∧ (∀ (limit : Nat) (task : Nat → Except E O) (err : Nat → E),
        (∀ k, k ≤ limit → task k = .error (err k)) →
        retry limit task = (.error (err limit), limit + 1, (List.range limit).map err))
    ∧ (∀ task : Nat → Except E O, (retry 0 task).2.1 = 1) := by
  refine ⟨?_, ?_, ?_, ?_⟩
  · intro limit task
    exact retryFrom_count task limit 0
  · intro limit j task o err hj hlt hok
    have := retryFrom_first_ok task o err j limit 0 hj
      (fun k hk => by simpa using hlt k hk) (by simpa using hok)
    simpa [retry] using this
  · intro limit task err h
    have := retryFrom_all_err task err limit 0 (fun k hk => by simpa using h k hk)
    simpa [retry] using this
  · intro task
    have := retryFrom_count task 0 0
    have h1 := this.1
    have h2 := this.2
    unfold retry
    omega

/-- C3 witness: the contract applied to concrete tasks over Nat results:
an immediately succeeding task at limit 2, a task failing once then
succeeding at limit 2, a task failing always at limit 1, and a failing task
at limit 0. -/
theorem c3_retry_contract_witness :
    (1 ≤ (retry 2 (fun _ => (Except.ok 5 : Except Nat Nat))).2.1
      ∧ (retry 2 (fun _ => (Except.ok 5 : Except Nat Nat))).2.1 ≤ 3)
    ∧ retry 2 (fun k => if k = 0 then (Except.error 9 : Except Nat Nat) else .ok 5)
        = (.ok 5, 2, [9])
    ∧ retry 1 (fun k => (Except.error (k + 1) : Except Nat Nat)) = (.error 2, 2, [1])
    ∧ (retry 0 (fun _ => (Except.error 7 : Except Nat Nat))).2.1 = 1 := by
  refine ⟨c3_retry_contract.1 2 _, ?_, ?_, c3_retry_contract.2.2.2 _⟩
  · have := c3_retry_contract.2.1 2 1
      (fun k => if k = 0 then (Except.error 9 : Except Nat Nat) else .ok 5) 5
      (fun _ => 9) (by omega)
      (fun k hk => by
        have : k = 0 := by omega
        subst this
        rfl)
      rfl
    simpa using this
  · have := c3_retry_contract.2.2.1 1 (fun k => (Except.error (k + 1) : Except Nat Nat))
      (fun k => k + 1) (fun k _ => rfl)
    simpa using this

/-- C6: the search request offset equals (page - 1) * limit after page 0 is
normalized to 1; limit 30 page 1 gives offset 0, page 0 gives offset 0, and
page 3 gives offset 2 * limit. -/
theorem c6_search_offset :
    (∀ (s : String) (options : MetingSearchOptions),
      (SearchReq.new s options).offset
        = ((if options.page = 0 then 1 else options.page) - 1) * options.limit)
    ∧ (SearchReq.new "k" { limit := 30, page := 1, type := 1 }).offset = 0
    ∧ (SearchReq.new "k" { limit := 30, page := 0, type := 1 }).offset = 0
    ∧ (∀ (s : String) (l t : Nat),
        (SearchReq.new s { limit := l, page := 3, type := t }).offset = 2 * l) :=
  ⟨fun _ _ => rfl, rfl, rfl, fun _ _ _ => rfl⟩

/-- C1 counterexample: a record with well-typed id and name but no ar field
is rejected by get_id_name_artist (it returns none), contradicting the claim
that the normalizer still succeeds with an empty artists string. -/
theorem c1_counterexample :
    (Json.obj [("id", Json.num 1), ("name", Json.str "x")]).get "id" = some (Json.num 1)
    ∧ (Json.obj [("id", Json.num 1), ("name", Json.str "x")]).get "name"
        = some (Json.str "x")
    ∧ get_id_name_artist (Json.obj [("id", Json.num 1), ("name", Json.str "x")]) = none :=
  ⟨rfl, rfl, rfl⟩

/-- C1 amended: when the ar field is missing or is not a JSON array, the
track normalizer rejects the record (returns none) even if id and name are
present and well-typed. -/
theorem c1_ar_missing_rejects (input : Json)
    (h : (input.get "ar").bind Json.as_array = none) :
    get_id_name_artist input = none := by
  unfold get_id_name_artist
  cases hid : input.get "id" with
  | none => rfl
  | some idv =>
    cases hu : idv.as_u64 with
    | none => simp [hid, hu]
    | some idn =>
      cases hname : input.get "name" with
      | none => simp [hid, hu, hname]
      | some namev =>
        cases hs : namev.as_str with
        | none => simp [hid, hu, hname, hs]
        | some name =>
          cases har : input.get "ar" with
          | none => simp [hid, hu, hname, hs, har]
          | some arv =>
            have : arv.as_array = none := by
              rw [har] at h
              simpa using h
            simp [hid, hu, hname, hs, har, this]

/-- C1 witness: the amended theorem applied to the concrete record with id 1
and name x and no ar field. -/
theorem c1_ar_missing_rejects_witness :
    ((Json.obj [("id", Json.num 1), ("name", Json.str "x")]).get "ar").bind Json.as_array
      = none
    ∧ get_id_name_artist (Json.obj [("id", Json.num 1), ("name", Json.str "x")]) = none :=
  ⟨rfl, c1_ar_missing_rejects (Json.obj [("id", Json.num 1), ("name", Json.str "x")]) rfl⟩

/-- C4: the song response handling panics (unwrap on None) instead of
returning an Err when the response lacks a songs field, when songs is not an
array, and when the songs array is empty. -/
theorem c4_song_extract_panics :
    songExtract [] (fun s => s) (fun s => s) (fun s => s) = .panic
    ∧ songExtract [("songs", Json.str "oops")] (fun s => s) (fun s => s) (fun s => s) = .panic
    ∧ songExtract [("songs", Json.arr [])] (fun s => s) (fun s => s) (fun s => s) = .panic :=
  ⟨rfl, rfl, rfl⟩

/-- C5: the playback-URL response handling fails with Error::None when
data[0].code is an unsigned integer different from 200; returns the url
string (or nested uf.url) with every http:// replaced by https:// when
code is 200; and fails with Error::None when the data array is empty. -/
theorem c5_url_code_dispatch :
    (∀ (data : JsonMap) (j : Json) (rest : List Json) (c : Nat),
        mapGet data "data" = some (Json.arr (j :: rest)) →
        j.get "code" = some (Json.num c) → c < 2 ^ 64 → c ≠ 200 →
        urlExtract data = .error .None)
    ∧ (∀ (data : JsonMap) (j : Json) (rest : List Json) (s : String),
        mapGet data "data" = some (Json.arr (j :: rest)) →
        j.get "code" = some (Json.num 200) →
        ((j.get "url").orElse fun _ => (j.get "uf").bind (Json.get · "url"))
          = some (Json.str s) →
        urlExtract data = .ok (rustReplace s "http://" "https://"))
    ∧ (∀ data : JsonMap, mapGet data "data" = some (Json.arr []) →
        urlExtract data = .error .None) := by
  refine ⟨?_, ?_, ?_⟩
  · intro data j rest c hdata hcode hlt hne
    have hlt' : c < 18446744073709551616 := by simpa using hlt
    simp [urlExtract, orErr, bind, Except.bind, hdata, hcode, Json.as_array,
      Json.as_u64, hlt', hne]
  · intro data j rest s hdata hcode hurl
    simp [urlExtract, orErr, bind, Except.bind, Functor.map, Except.map, pure,
      Except.pure, hdata, hcode, hurl, Json.as_array, Json.as_u64, Json.as_str]
  · intro data hdata
    simp [urlExtract, orErr, bind, Except.bind, hdata, Json.as_array]

/-- C5 witness: the three cases of the dispatch applied to concrete
responses: code 404, code 200 with an http url, and an empty data array. -/
theorem c5_url_code_dispatch_witness :
    urlExtract [("data", Json.arr [Json.obj [("code", Json.num 404),
        ("url", Json.str "http://a")]])] = .error .None
    ∧ urlExtract [("data", Json.arr [Json.obj [("code", Json.num 200),
        ("url", Json.str "http://a")]])] = .ok "https://a"
    ∧ urlExtract [("data", Json.arr [])] = .error .None := by
  refine ⟨?_, ?_, ?_⟩
  · exact c5_url_code_dispatch.1
      [("data", Json.arr [Json.obj [("code", Json.num 404), ("url", Json.str "http://a")]])]
      (Json.obj [("code", Json.num 404), ("url", Json.str "http://a")]) [] 404
      rfl rfl (by decide) (by decide)
  · have := c5_url_code_dispatch.2.1
      [("data", Json.arr [Json.obj [("code", Json.num 200), ("url", Json.str "http://a")]])]
      (Json.obj [("code", Json.num 200), ("url", Json.str "http://a")]) [] "http://a"
      rfl rfl rfl
    rw [this]
    rfl
  · exact c5_url_code_dispatch.2.2 [("data", Json.arr [])] rfl

/-- C7: the ar array with elements named A, unnamed, and C normalizes to the
artists string A/C (on a record with id 7 and name t), and in general the
artist join equals the slash-separated join, in order, of exactly those
elements of ar whose name field is a string. -/
theorem c7_artist_join :
    get_id_name_artist (Json.obj [("id", Json.num 7), ("name", Json.str "t"),
        ("ar", Json.arr [Json.obj [("name", Json.str "A")], Json.obj [],
          Json.obj [("name", Json.str "C")]])])
      = some ("7", "t", "A/C")
    ∧ ∀ ar : List Json,
        artistJoin ar = specJoin (ar.filterMap fun x => (x.get "name").bind Json.as_str) :=
  ⟨rfl, fun _ => joinNames_eq_specJoin _⟩

/-- C10: the playback-URL replacement rewrites every occurrence of http://
anywhere in the string, not only a leading scheme: the replacement at the
first occurrence site (wherever it is) prepends the prefix unchanged and
continues on the remainder; a string containing no http:// substring is
returned unchanged; and concretely a response whose only http:// occurrence
is in a query parameter comes back with that occurrence rewritten. -/
theorem c10_replace_everywhere :
    (∀ u v : List Char,
        containsSub "http://".data (u ++ "http://".data.dropLast) = false →
        rustReplace (String.mk (u ++ "http://".data ++ v)) "http://" "https://"
          = String.mk (u ++ "https://".data
              ++ (rustReplace (String.mk v) "http://" "https://").data))
    ∧ (∀ s : String, containsSub "http://".data s.data = false →
        rustReplace s "http://" "https://" = s)
    ∧ urlExtract [("data", Json.arr [Json.obj [("code", Json.num 200),
        ("url", Json.str "rtsp://media.example/v?f=http://cdn.example/f")]])]
      = .ok "rtsp://media.example/v?f=https://cdn.example/f" := by
  refine ⟨?_, ?_, ?_⟩
  · intro u v h
    unfold rustReplace
    exact congrArg String.mk
      (replaceGo_first_occurrence _ _ (by decide) u v h _ (Nat.le_refl _))
  · intro s h
    unfold rustReplace
    rw [replaceGo_not_contains _ _ _ h]
  · decide

/-- C10 witness: the first-occurrence decomposition applied at a query
parameter position, and the no-occurrence case applied to an https url. -/
theorem c10_replace_everywhere_witness :
    containsSub "http://".data ("a?go=".data ++ "http://".data.dropLast) = false
    ∧ rustReplace (String.mk ("a?go=".data ++ "http://".data ++ "b".data))
        "http://" "https://"
        = String.mk ("a?go=".data ++ "https://".data
            ++ (rustReplace (String.mk "b".data) "http://" "https://").data)
    ∧ containsSub "http://".data "https://x".data = false
    ∧ rustReplace "https://x" "http://" "https://" = "https://x" :=
  ⟨by decide, c10_replace_everywhere.1 "a?go=".data "b".data (by decide),
    by decide, c10_replace_everywhere.2.1 "https://x" (by decide)⟩

/-- C8: the envelope encoder is deterministic in its random input (equal
16-byte draws give equal envelopes); on success both envelope fields are
non-empty; and every byte of the derived symmetric key lies in the
62-character alphanumeric alphabet via the modulo-62 remap. -/
theorem c8_envelope_properties :
    (∀ (prims : CryptoPrims) (r1 r2 : List Nat) (input : String), r1 = r2 →
        WeapiEncoder.tryFromStr prims r1 input = WeapiEncoder.tryFromStr prims r2 input)
    ∧ (∀ (prims : CryptoPrims) (skeyRaw : List Nat) (input : String) (env : WeapiEncoder),
        WeapiEncoder.tryFromStr prims skeyRaw input = .ok env →
        env.params ≠ "" ∧ env.encSecKey ≠ "")
    ∧ (∀ (skeyRaw : List Nat) (b : Nat), b ∈ derivedKey skeyRaw → b ∈ base62Alphabet) := by
  refine ⟨?_, ?_, ?_⟩
  · intro prims r1 r2 input h
    rw [h]
  · intro prims skeyRaw input env h
    unfold WeapiEncoder.tryFromStr at h
    cases h1 : prims.aesEnc presetKey ivBytes (strBytes input) with
    | error e =>
      rw [h1] at h
      simp [bind, Except.bind] at h
    | ok c1 =>
      rw [h1] at h
      simp only [bind, Except.bind] at h
      cases h2 : prims.aesEnc (derivedKey skeyRaw) ivBytes (strBytes (base64Encode c1)) with
      | error e =>
        rw [h2] at h
        simp [bind, Except.bind] at h
      | ok c2 =>
        rw [h2] at h
        simp only [bind, Except.bind] at h
        by_cases hall : (derivedKey skeyRaw).reverse.all (fun b => b < 128)
        · rw [if_pos hall] at h
          try simp only [bind, Except.bind] at h
          cases h3 : prims.rsaImport with
          | error e =>
            rw [h3] at h
            simp [bind, Except.bind] at h
          | ok u =>
            rw [h3] at h
            try simp only [bind, Except.bind] at h
            cases h4 : prims.rsaEnc
                (List.replicate (128 - (derivedKey skeyRaw).reverse.length) 0
                  ++ (derivedKey skeyRaw).reverse) with
            | error e =>
              rw [h4] at h
              simp [bind, Except.bind] at h
            | ok buf =>
              rw [h4] at h
              simp only [bind, Except.bind, Except.ok.injEq] at h
              have hc2 : c2 ≠ [] := by
                have hlen := prims.aesLen _ _ _ _ h2
                have : 0 < c2.length := by
                  rw [hlen]
                  exact Nat.mul_pos (Nat.succ_pos _) (by norm_num)
                exact List.length_pos.mp this
              have hbuf : buf ≠ [] := by
                have hlen := prims.rsaLen _ _ h4
                have : 0 < buf.length := by
                  rw [hlen]
                  exact prims.rsaSizePos
                exact List.length_pos.mp this
              rw [← h]
              exact ⟨base64Encode_ne_empty c2 hc2, hexEncode_ne_empty buf hbuf⟩
        · rw [if_neg hall] at h
          simp [bind, Except.bind] at h
  · intro skeyRaw b hb
    simp only [derivedKey, List.mem_map] at hb
    obtain ⟨i, _, hib⟩ := hb
    have hlt : i % 62 < base62Alphabet.length := by
      have h62 : base62Alphabet.length = 62 := by decide
      rw [h62]
      exact Nat.mod_lt i (by norm_num)
    rw [← hib, List.getD_eq_getElem base62Alphabet 0 hlt]
    exact List.getElem_mem hlt

set_option maxRecDepth 100000

set_option maxHeartbeats 4000000

/-- C8 witness: the properties at the test primitives, 16 zero random bytes
and the plaintext x: determinism at equal draws, non-empty fields of the
resulting envelope, and membership of byte 97 of the derived key. -/
theorem c8_envelope_properties_witness :
    WeapiEncoder.tryFromStr testPrims (List.replicate 16 0) "x"
        = WeapiEncoder.tryFromStr testPrims (List.replicate 16 0) "x"
    ∧ WeapiEncoder.tryFromStr testPrims (List.replicate 16 0) "x" = .ok c8env
    ∧ (c8env.params ≠ "" ∧ c8env.encSecKey ≠ "")
    ∧ 97 ∈ derivedKey (List.replicate 16 0)
    ∧ 97 ∈ base62Alphabet := by
  have henv : WeapiEncoder.tryFromStr testPrims (List.replicate 16 0) "x" = .ok c8env := by
    decide
  have hmem : 97 ∈ derivedKey (List.replicate 16 0) := by decide
  exact ⟨c8_envelope_properties.1 testPrims _ _ "x" rfl, henv,
    c8_envelope_properties.2.1 testPrims (List.replicate 16 0) "x" c8env henv,
    hmem, c8_envelope_properties.2.2 (List.replicate 16 0) 97 hmem⟩

/-- The batch sizes the partition actually produces for 1025 track ids:
the flush at index 512 closes a first bucket of 513 items, the flush at
index 1024 closes a second of 512, and the final push appends the empty
current bucket. -/
theorem partition1025_sizes :
    (partitionBatches ((List.range 1025).map SongItem.new)).map List.length
      = [513, 512, 0] := by
  decide

/-- C2 counterexample: a playlist of 1025 track ids is partitioned into
batches of sizes 513, 512 and 0, not into 512, 512 and 1 as claimed. -/
theorem c2_counterexample :
    (partitionBatches ((List.range 1025).map SongItem.new)).map List.length
        = [513, 512, 0]
    ∧ (partitionBatches ((List.range 1025).map SongItem.new)).map List.length
        ≠ [512, 512, 1] := by
  refine ⟨partition1025_sizes, ?_⟩
  rw [partition1025_sizes]
  decide

/-- C2 amended: a playlist of 1025 track ids is partitioned into 3 batches
of sizes 513, 512 and 0 in original order; with retry limit 0, if the second
batch (the one holding 512 items) fails its single attempt while the others
succeed, the final list holds exactly the 513 songs of batch 1 in original
order (batch 3 is empty), the songs of batch 2 are absent, and no error is
returned. -/
theorem c2_batching_amended :
    (partitionBatches ((List.range 1025).map SongItem.new)).map List.length
        = [513, 512, 0]
    ∧ playlistPipeline (List.range 1025) (fun b => some b) 0
        (fun b _ => if b.length = 512 then .error "req failed" else .ok (songsResp b))
        (fun s => s) (fun s => s) (fun s => s)
      = .ok ((List.range 513).map plainSong) := by
  refine ⟨partition1025_sizes, ?_⟩
  decide

/-- C9: in the playlist pipeline a batch whose envelope encoding fails is
silently omitted: of the two batches of a 600-id playlist, when encoding
fails exactly on the first (513-item) batch, only the second batch remains
as a task, the result holds exactly the songs of the second batch with no
Encode error; by contrast, the playback-URL operation aborts with an Encode
error as soon as its envelope encoding fails, before any request is made. -/
theorem c9_encode_failure_policy :
    ((partitionBatches ((List.range 600).map SongItem.new)).filterMap
        (fun b => if b.length = 513 then none else some b))
      = [(List.range' 513 87).map SongItem.new]
    ∧ playlistPipeline (List.range 600)
        (fun b => if b.length = 513 then none else some b) 0
        (fun b _ => .ok (songsResp b)) (fun s => s) (fun s => s) (fun s => s)
      = .ok ((List.range' 513 87).map plainSong)
    ∧ ∀ fetch : Unit → Except String JsonMap,
        urlOp (.error (ParseErr.EncodeData "boom")) fetch
          = .error (Error.Encode "netease" "EncodeData(boom)") := by
  refine ⟨by decide, by decide, fun fetch => rfl⟩

end NeoMeting
